import Mathlib

/-!
Verification of the cache simulator in `cachesim_modified.cc`.

The cache state is embedded shallowly: the C++ `uint64_t` arrays `tags` and
`lru` become `List Nat` (all stored values stay below `2 ^ 64`), the statistics
counters become `Nat` fields updated modulo `2 ^ 64`, and the optional
`miss_handler` pointer becomes a `has_handler : Bool` flag together with an
explicit list of forwarded calls returned by `access` (the C++ code forwards by
calling `miss_handler->access(...)`; here every forwarded call is recorded as a
`FwdCall` value, in forwarding order).
-/

/-- Width modulus of the C++ `uint64_t` / `size_t` arithmetic. -/
def U64 : Nat := 2 ^ 64

/-- Reduction modulo `2 ^ 64`, the effect of storing into a `uint64_t`. -/
def w64 (x : Nat) : Nat := x % U64

/-- Bitwise complement within 64 bits: for `x < 2 ^ 64`, the C++ `~x`
on `uint64_t` equals `2 ^ 64 - 1 - x`. -/
def not64 (x : Nat) : Nat := U64 - 1 - x

/-- Modelled from the spec: the `VALID` flag constant lives in `cachesim.h`,
which is not part of the sources given (only `cachesim_modified.cc` is).
The spec describes a tag word packing a VALID flag, a DIRTY flag and the tag
value `addr >> index_shift` in one unsigned 64-bit integer, and requires
(section 8) that a line filled by `(addr >> index_shift) | VALID` is found
again by the lookup comparison `slot & ~DIRTY == (addr >> index_shift) | VALID`
for every address.  That forces the two flag bits to lie above every reachable
tag bit: since `line_size ≥ 8` implies `index_shift ≥ 3`, tags are below
`2 ^ 61`, and the flags occupy the top two bits, `VALID = 2 ^ 63`. -/
def VALID : Nat := 2 ^ 63

/-- Modelled from the spec: the `DIRTY` flag constant from `cachesim.h`,
the second of the two top flag bits, `DIRTY = 2 ^ 62`.  See `VALID`. -/
def DIRTY : Nat := 2 ^ 62

/-- One forwarded call `miss_handler->access(addr, bytes, store)`. -/
structure FwdCall where
  addr : Nat
  bytes : Nat
  store : Bool
  deriving DecidableEq, Repr

/-- State of one `cache_sim_t` instance: geometry, tag table, LRU table,
statistics counters, and whether a downstream `miss_handler` is configured. -/
structure CacheState where
  sets : Nat
  ways : Nat
  linesz : Nat
  idx_shift : Nat
  tags : List Nat
  lru : List Nat
  read_accesses : Nat
  read_misses : Nat
  bytes_read : Nat
  write_accesses : Nat
  write_misses : Nat
  bytes_written : Nat
  writebacks : Nat
  has_handler : Bool
  deriving DecidableEq, Repr

/-- The `len` consecutive entries of the flat array `l` starting at `base`;
used to talk about the per-set segment `lru[idx*ways .. idx*ways+ways-1]`. -/
def subBlock (l : List Nat) (base len : Nat) : List Nat :=
  (l.drop base).take len

/-- Replace the `len` consecutive entries of `l` starting at `base` by `b`;
the loops in `check_tag`/`victimize` only write inside this segment. -/
def putBlock (l : List Nat) (base len : Nat) (b : List Nat) : List Nat :=
  l.take base ++ b ++ l.drop (base + len)

/-- Index of the first occurrence of `k`, mirroring the linear scan
`for (i = 0; i < ways; i++) if (lru[idx*ways+i] == updated_way) ...`. -/
def findPos (k : Nat) : List Nat → Option Nat
  | [] => none
  | x :: xs => if x == k then some 0 else (findPos k xs).map (· + 1)

/-- `cache_sim_t::check_tag` (lines 114-135): compute the set index and the
expected tag word, scan the set's `ways` tag slots for a match ignoring DIRTY;
on a match move the matched way to the front of the set's LRU order (shift the
entries before its position down by one, put it at position 0) and return the
flat index of the matching slot; otherwise return `none` with no state change. -/
def check_tag (s : CacheState) (addr : Nat) : CacheState × Option Nat :=
  let idx := (addr >>> s.idx_shift) &&& (s.sets - 1)
  let tag := (addr >>> s.idx_shift) ||| VALID
  match (List.range s.ways).find?
      (fun k => tag == ((s.tags.getD (idx * s.ways + k) 0) &&& not64 DIRTY)) with
  | some k =>
      let base := idx * s.ways
      let block := subBlock s.lru base s.ways
      let block' :=
        match findPos k block with
        | some i => k :: (block.take i ++ block.drop (i + 1))
        | none => block
      ({ s with lru := putBlock s.lru base s.ways block' }, some (base + k))
  | none => (s, none)

/-- `cache_sim_t::victimize` (lines 137-152): the victim way is the one at the
set's last LRU position; every other way is shifted one position toward the
back and the victim way becomes position 0 (most recently used); the victim
way's tag slot is overwritten with `(addr >> idx_shift) | VALID` and its prior
contents are returned. -/
def victimize (s : CacheState) (addr : Nat) : CacheState × Nat :=
  let idx := (addr >>> s.idx_shift) &&& (s.sets - 1)
  let base := idx * s.ways
  let lru_way := s.lru.getD (base + s.ways - 1) 0
  let block := subBlock s.lru base s.ways
  let lru' := putBlock s.lru base s.ways (lru_way :: block.take (s.ways - 1))
  let victim := s.tags.getD (base + lru_way) 0
  ({ s with
      lru := lru',
      tags := s.tags.set (base + lru_way) ((addr >>> s.idx_shift) ||| VALID) },
    victim)

/-- `fa_cache_sim_t::check_tag` (lines 187-208): textually identical to
`cache_sim_t::check_tag`. -/
def fa_check_tag (s : CacheState) (addr : Nat) : CacheState × Option Nat :=
  let idx := (addr >>> s.idx_shift) &&& (s.sets - 1)
  let tag := (addr >>> s.idx_shift) ||| VALID
  match (List.range s.ways).find?
      (fun k => tag == ((s.tags.getD (idx * s.ways + k) 0) &&& not64 DIRTY)) with
  | some k =>
      let base := idx * s.ways
      let block := subBlock s.lru base s.ways
      let block' :=
        match findPos k block with
        | some i => k :: (block.take i ++ block.drop (i + 1))
        | none => block
      ({ s with lru := putBlock s.lru base s.ways block' }, some (base + k))
  | none => (s, none)

/-- `fa_cache_sim_t::victimize` (lines 210-224): same as `victimize` but
without the set-index offset; the LRU order is the flat prefix
`lru[0 .. ways-1]`. -/
def fa_victimize (s : CacheState) (addr : Nat) : CacheState × Nat :=
  let lru_way := s.lru.getD (s.ways - 1) 0
  let old_tag := s.tags.getD lru_way 0
  let tags' := s.tags.set lru_way ((addr >>> s.idx_shift) ||| VALID)
  let lru' := (lru_way :: s.lru.take (s.ways - 1)) ++ s.lru.drop s.ways
  ({ s with tags := tags', lru := lru' }, old_tag)

/-- Line 155-156: bump the access counter and byte counter for the direction. -/
def bumpAccess (s : CacheState) (bytes : Nat) (store : Bool) : CacheState :=
  match store with
  | true =>
    { s with write_accesses := w64 (s.write_accesses + 1),
             bytes_written := w64 (s.bytes_written + bytes) }
  | false =>
    { s with read_accesses := w64 (s.read_accesses + 1),
             bytes_read := w64 (s.bytes_read + bytes) }

/-- Line 165: bump the miss counter for the direction. -/
def bumpMiss (s : CacheState) (store : Bool) : CacheState :=
  match store with
  | true => { s with write_misses := w64 (s.write_misses + 1) }
  | false => { s with read_misses := w64 (s.read_misses + 1) }

/-- `cache_sim_t::access` (lines 154-182), parameterized by the virtual
`check_tag` and `victimize` implementations (C++ virtual dispatch: the
fully-associative subclass inherits `access` and overrides only those two).
Returns the new state and the forwarded calls in forwarding order.
On the store-miss path the C++ writes through the pointer returned by the
re-lookup without a null check; the `none` branch of that match is proved
unreachable separately. -/
def accessWith (ct : CacheState → Nat → CacheState × Option Nat)
    (vic : CacheState → Nat → CacheState × Nat)
    (s : CacheState) (addr bytes : Nat) (store : Bool) :
    CacheState × List FwdCall :=
  let s0 := bumpAccess s bytes store
  match ct s0 addr with
  | (s1, some p) =>
      (match store with
        | true => { s1 with tags := s1.tags.set p ((s1.tags.getD p 0) ||| DIRTY) }
        | false => s1, [])
  | (s1, none) =>
      let s2 := bumpMiss s1 store
      let vres := vic s2 addr
      let s3 := vres.1
      let victim := vres.2
      let wbCalls : List FwdCall :=
        if victim &&& (VALID ||| DIRTY) = VALID ||| DIRTY ∧ s3.has_handler = true then
          [⟨w64 ((victim &&& not64 (VALID ||| DIRTY)) <<< s3.idx_shift), s3.linesz, true⟩]
        else []
      let s4 :=
        if victim &&& (VALID ||| DIRTY) = VALID ||| DIRTY then
          { s3 with writebacks := w64 (s3.writebacks + 1) }
        else s3
      let fillCalls : List FwdCall :=
        if s4.has_handler = true then
          [⟨addr &&& not64 (s4.linesz - 1), s4.linesz, false⟩]
        else []
      let s5 :=
        match store with
        | true =>
          match ct s4 addr with
          | (s', some p) =>
              { s' with tags := s'.tags.set p ((s'.tags.getD p 0) ||| DIRTY) }
          | (s', none) => s'
        | false => s4
      (s5, wbCalls ++ fillCalls)

/-- `access` of the set-associative cache `cache_sim_t`. -/
def access (s : CacheState) (addr bytes : Nat) (store : Bool) :
    CacheState × List FwdCall :=
  accessWith check_tag victimize s addr bytes store

/-- `access` of the fully-associative cache `fa_cache_sim_t` (inherited body,
virtual dispatch to the overridden `check_tag`/`victimize`). -/
def fa_access (s : CacheState) (addr bytes : Nat) (store : Bool) :
    CacheState × List FwdCall :=
  accessWith fa_check_tag fa_victimize s addr bytes store

/-- Run a trace of `(addr, bytes, store)` requests, accumulating the forwarded
calls of every step in order. -/
def runTraceWith
    (acc : CacheState → Nat → Nat → Bool → CacheState × List FwdCall) :
    CacheState → List (Nat × Nat × Bool) → CacheState × List FwdCall
  | s, [] => (s, [])
  | s, (a, n, w) :: tr =>
      let r := acc s a n w
      let r2 := runTraceWith acc r.1 tr
      (r2.1, r.2 ++ r2.2)

/-- Trace semantics of the set-associative cache. -/
def runTrace : CacheState → List (Nat × Nat × Bool) → CacheState × List FwdCall :=
  runTraceWith access

/-- Trace semantics of the fully-associative cache. -/
def fa_runTrace : CacheState → List (Nat × Nat × Bool) → CacheState × List FwdCall :=
  runTraceWith fa_access

/-- Initial LRU order of one set (lines 52-56): position `j` holds way
`ways - j - 1`. -/
def initBlock (ways : Nat) : List Nat :=
  (List.range ways).map (fun j => ways - j - 1)

/-- `n` copies of the block `b` laid out flat, the shape of the freshly
initialized `lru` array over all sets. -/
def repBlocks : Nat → List Nat → List Nat
  | 0, _ => []
  | n + 1, b => b ++ repBlocks n b

/-- The loop of lines 45-46, `for (x = linesz; x > 1; x >>= 1) idx_shift++`,
counting halvings of `linesz` down to 1.  The first argument is fuel bounding
the iteration count (the loop variable at least halves every iteration, so
`linesz` iterations always suffice); `idxShiftLoop linesz linesz` equals
`Nat.log2 linesz` (`idxShiftLoop_eq_log2`). -/
def idxShiftLoop : Nat → Nat → Nat
  | 0, _ => 0
  | fuel + 1, x => if 1 < x then idxShiftLoop fuel (x >>> 1) + 1 else 0

/-- State built by `cache_sim_t::init` (lines 41-67) after the validation
checks pass: `idx_shift` counts the halvings of `linesz` down to 1
(that is `Nat.log2 linesz`), the tag array is zero-initialized, the LRU
array holds way `ways - j - 1` at position `j` of every set, all counters are
zero and no miss handler is configured. -/
def mkCache (sets ways linesz : Nat) : CacheState :=
  { sets := sets
    ways := ways
    linesz := linesz
    idx_shift := idxShiftLoop linesz linesz
    tags := List.replicate (sets * ways) 0
    lru := repBlocks sets (initBlock ways)
    read_accesses := 0
    read_misses := 0
    bytes_read := 0
    write_accesses := 0
    write_misses := 0
    bytes_written := 0
    writebacks := 0
    has_handler := false }

/-- Validation performed by `cache_sim_t::init` (lines 42-43): the
construction aborts via `help()` unless `sets` is a nonzero power of two and
`linesz` is a power of two at least 8.  Note that `ways` is not examined. -/
def initOk (sets linesz : Nat) : Bool :=
  !(sets == 0 || (sets &&& (sets - 1)) != 0) &&
  !(decide (linesz < 8) || (linesz &&& (linesz - 1)) != 0)

/-- A geometry the spec calls valid: passes the code's construction checks and
has at least one way. -/
def validGeom (sets ways linesz : Nat) : Prop :=
  initOk sets linesz = true ∧ 1 ≤ ways

/-- Structural well-formedness maintained by every reachable state: geometry
bounds, array lengths, and the per-set LRU permutation property. -/
def CacheInv (s : CacheState) : Prop :=
  1 ≤ s.sets ∧ 1 ≤ s.ways ∧ 3 ≤ s.idx_shift ∧
  s.tags.length = s.sets * s.ways ∧
  s.lru.length = s.sets * s.ways ∧
  ∀ i < s.sets, (subBlock s.lru (i * s.ways) s.ways).Perm (List.range s.ways)

instance (s : CacheState) : Decidable (CacheInv s) := by
  unfold CacheInv; infer_instance

instance (sets ways linesz : Nat) : Decidable (validGeom sets ways linesz) := by
  unfold validGeom; infer_instance

/-- States reachable from a freshly constructed cache by any sequence of
`access`, `check_tag` and `victimize` calls (and rebinding the handler). -/
inductive Reachable (sets ways linesz : Nat) : CacheState → Prop
  | init : Reachable sets ways linesz (mkCache sets ways linesz)
  | step_access {s} (a n : Nat) (w : Bool) :
      Reachable sets ways linesz s → Reachable sets ways linesz (access s a n w).1
  | step_check {s} (a : Nat) :
      Reachable sets ways linesz s → Reachable sets ways linesz (check_tag s a).1
  | step_victim {s} (a : Nat) :
      Reachable sets ways linesz s → Reachable sets ways linesz (victimize s a).1
  | step_handler {s} (b : Bool) :
      Reachable sets ways linesz s → Reachable sets ways linesz { s with has_handler := b }

/-- `cache_sim_t::cache_sim_t(const cache_sim_t&)` (lines 69-81): copies the
geometry and duplicates the `tags` and `lru` arrays, but its initializer list
names none of the statistics counters and does not assign `miss_handler`, so
those members are left indeterminate; the unspecified values appear here as
the extra parameters. -/
def copyCtor (rhs : CacheState) (ra rm br wa wm bw wb : Nat) (hh : Bool) :
    CacheState :=
  { sets := rhs.sets
    ways := rhs.ways
    linesz := rhs.linesz
    idx_shift := rhs.idx_shift
    tags := rhs.tags
    lru := rhs.lru
    read_accesses := ra
    read_misses := rm
    bytes_read := br
    write_accesses := wa
    write_misses := wm
    bytes_written := bw
    writebacks := wb
    has_handler := hh }

/-- Claim C6 formalized as stated: validation succeeds exactly for geometries
with `sets` a power of two, `line_size` a power of two at least 8, and
`ways ≥ 1`. -/
def c6_claim : Prop :=
  ∀ sets ways linesz : Nat,
    initOk sets linesz = true ↔
      ((∃ k, sets = 2 ^ k) ∧ 8 ≤ linesz ∧ (∃ k, linesz = 2 ^ k) ∧ 1 ≤ ways)

/-! Helper lemmas: record-field preservation and counter commutation. -/

lemma bumpAccess_tags (s : CacheState) (n : Nat) (w : Bool) :
    (bumpAccess s n w).tags = s.tags := by cases w <;> rfl

lemma bumpAccess_lru (s : CacheState) (n : Nat) (w : Bool) :
    (bumpAccess s n w).lru = s.lru := by cases w <;> rfl

lemma bumpAccess_sets (s : CacheState) (n : Nat) (w : Bool) :
    (bumpAccess s n w).sets = s.sets := by cases w <;> rfl

lemma bumpAccess_ways (s : CacheState) (n : Nat) (w : Bool) :
    (bumpAccess s n w).ways = s.ways := by cases w <;> rfl

lemma bumpAccess_linesz (s : CacheState) (n : Nat) (w : Bool) :
    (bumpAccess s n w).linesz = s.linesz := by cases w <;> rfl

lemma bumpAccess_idx_shift (s : CacheState) (n : Nat) (w : Bool) :
    (bumpAccess s n w).idx_shift = s.idx_shift := by cases w <;> rfl

lemma bumpAccess_has_handler (s : CacheState) (n : Nat) (w : Bool) :
    (bumpAccess s n w).has_handler = s.has_handler := by cases w <;> rfl

lemma bumpAccess_read_misses (s : CacheState) (n : Nat) (w : Bool) :
    (bumpAccess s n w).read_misses = s.read_misses := by cases w <;> rfl

lemma bumpAccess_write_misses (s : CacheState) (n : Nat) (w : Bool) :
    (bumpAccess s n w).write_misses = s.write_misses := by cases w <;> rfl

lemma bumpAccess_writebacks (s : CacheState) (n : Nat) (w : Bool) :
    (bumpAccess s n w).writebacks = s.writebacks := by cases w <;> rfl

lemma bumpMiss_tags (s : CacheState) (w : Bool) :
    (bumpMiss s w).tags = s.tags := by cases w <;> rfl

lemma bumpMiss_lru (s : CacheState) (w : Bool) :
    (bumpMiss s w).lru = s.lru := by cases w <;> rfl

lemma bumpMiss_sets (s : CacheState) (w : Bool) :
    (bumpMiss s w).sets = s.sets := by cases w <;> rfl

lemma bumpMiss_ways (s : CacheState) (w : Bool) :
    (bumpMiss s w).ways = s.ways := by cases w <;> rfl

lemma bumpMiss_linesz (s : CacheState) (w : Bool) :
    (bumpMiss s w).linesz = s.linesz := by cases w <;> rfl

lemma bumpMiss_idx_shift (s : CacheState) (w : Bool) :
    (bumpMiss s w).idx_shift = s.idx_shift := by cases w <;> rfl

lemma bumpMiss_has_handler (s : CacheState) (w : Bool) :
    (bumpMiss s w).has_handler = s.has_handler := by cases w <;> rfl

lemma bumpMiss_writebacks (s : CacheState) (w : Bool) :
    (bumpMiss s w).writebacks = s.writebacks := by cases w <;> rfl

lemma check_tag_tags (s : CacheState) (a : Nat) : (check_tag s a).1.tags = s.tags := by
  simp only [check_tag]; split <;> rfl

lemma check_tag_sets (s : CacheState) (a : Nat) : (check_tag s a).1.sets = s.sets := by
  simp only [check_tag]; split <;> rfl

lemma check_tag_ways (s : CacheState) (a : Nat) : (check_tag s a).1.ways = s.ways := by
  simp only [check_tag]; split <;> rfl

lemma check_tag_linesz (s : CacheState) (a : Nat) : (check_tag s a).1.linesz = s.linesz := by
  simp only [check_tag]; split <;> rfl

lemma check_tag_idx_shift (s : CacheState) (a : Nat) :
    (check_tag s a).1.idx_shift = s.idx_shift := by
  simp only [check_tag]; split <;> rfl

lemma check_tag_has_handler (s : CacheState) (a : Nat) :
    (check_tag s a).1.has_handler = s.has_handler := by
  simp only [check_tag]; split <;> rfl

lemma check_tag_read_misses (s : CacheState) (a : Nat) :
    (check_tag s a).1.read_misses = s.read_misses := by
  simp only [check_tag]; split <;> rfl

lemma check_tag_write_misses (s : CacheState) (a : Nat) :
    (check_tag s a).1.write_misses = s.write_misses := by
  simp only [check_tag]; split <;> rfl

lemma check_tag_writebacks (s : CacheState) (a : Nat) :
    (check_tag s a).1.writebacks = s.writebacks := by
  simp only [check_tag]; split <;> rfl

lemma check_tag_none_eq (s : CacheState) (a : Nat) (h : (check_tag s a).2 = none) :
    (check_tag s a).1 = s := by
  revert h; simp only [check_tag]; split
  · simp
  · intro _; rfl

lemma victimize_sets (s : CacheState) (a : Nat) : (victimize s a).1.sets = s.sets := rfl

lemma victimize_ways (s : CacheState) (a : Nat) : (victimize s a).1.ways = s.ways := rfl

lemma victimize_linesz (s : CacheState) (a : Nat) : (victimize s a).1.linesz = s.linesz := rfl

lemma victimize_idx_shift (s : CacheState) (a : Nat) :
    (victimize s a).1.idx_shift = s.idx_shift := rfl

lemma victimize_has_handler (s : CacheState) (a : Nat) :
    (victimize s a).1.has_handler = s.has_handler := rfl

lemma victimize_read_misses (s : CacheState) (a : Nat) :
    (victimize s a).1.read_misses = s.read_misses := rfl

lemma victimize_write_misses (s : CacheState) (a : Nat) :
    (victimize s a).1.write_misses = s.write_misses := rfl

lemma victimize_writebacks (s : CacheState) (a : Nat) :
    (victimize s a).1.writebacks = s.writebacks := rfl

lemma check_tag_bumpAccess (s : CacheState) (n : Nat) (w : Bool) (a : Nat) :
    check_tag (bumpAccess s n w) a = (bumpAccess (check_tag s a).1 n w, (check_tag s a).2) := by
  cases s; cases w <;>
    (simp only [check_tag, bumpAccess]; split <;> rfl)

lemma victimize_bumpAccess (s : CacheState) (n : Nat) (w : Bool) (a : Nat) :
    victimize (bumpAccess s n w) a = (bumpAccess (victimize s a).1 n w, (victimize s a).2) := by
  cases s; cases w <;> rfl

lemma victimize_bumpMiss (s : CacheState) (w : Bool) (a : Nat) :
    victimize (bumpMiss s w) a = (bumpMiss (victimize s a).1 w, (victimize s a).2) := by
  cases s; cases w <;> rfl

/-! Helper lemmas: bit-level facts about the tag word encoding. -/
lemma testBit_not64_DIRTY (i : Nat) :
    (not64 DIRTY).testBit i = (decide (i = 63) || decide (i < 62)) := by
  have h : not64 DIRTY = 2 ^ 63 + (2 ^ 62 - 1) := by norm_num [not64, DIRTY, U64]
  rw [h]
  rcases lt_trichotomy i 63 with hi | hi | hi
  · rw [Nat.testBit_two_pow_add_gt hi, Nat.testBit_two_pow_sub_one]
    have : i ≠ 63 := Nat.ne_of_lt hi
    simp [this]
  · subst hi
    rw [Nat.testBit_two_pow_add_eq, Nat.testBit_two_pow_sub_one]
    simp
  · have hlt : 2 ^ 63 + (2 ^ 62 - 1) < 2 ^ i := by
      calc 2 ^ 63 + (2 ^ 62 - 1) < 2 ^ 64 := by norm_num
      _ ≤ 2 ^ i := Nat.pow_le_pow_right (by norm_num) (by omega)
    rw [Nat.testBit_lt_two_pow hlt]
    have h1 : i ≠ 63 := by omega
    have h2 : ¬ (i < 62) := by omega
    simp [h1, h2]

lemma tag_and_notDirty {t : Nat} (ht : t < 2 ^ 62) :
    (t ||| VALID) &&& not64 DIRTY = t ||| VALID := by
  apply Nat.eq_of_testBit_eq
  intro i
  rw [Nat.testBit_and, Nat.testBit_or, testBit_not64_DIRTY]
  by_cases h63 : i = 63
  · subst h63; simp
  · by_cases h62 : i < 62
    · simp [h62]
    · have h1 : t.testBit i = false := Nat.testBit_lt_two_pow (by
        calc t < 2 ^ 62 := ht
        _ ≤ 2 ^ i := Nat.pow_le_pow_right (by norm_num) (by omega))
      have h2 : VALID.testBit i = false := by
        rw [VALID, Nat.testBit_two_pow]
        simp; omega
      simp [h1, h2]

lemma tag_ne_zero (t : Nat) : (t ||| VALID) ≠ 0 := by
  intro h0
  have h63 : (t ||| VALID).testBit 63 = true := by
    rw [Nat.testBit_or, VALID, Nat.testBit_two_pow_self]
    simp
  rw [h0] at h63
  simp at h63

lemma tag_and_VALID (t : Nat) : (t ||| VALID) &&& VALID = VALID := by
  apply Nat.eq_of_testBit_eq
  intro i
  rw [Nat.testBit_and, Nat.testBit_or]
  cases h : VALID.testBit i <;> simp [h]

lemma tag_and_DIRTY {t : Nat} (ht : t < 2 ^ 62) : (t ||| VALID) &&& DIRTY = 0 := by
  apply Nat.eq_of_testBit_eq
  intro i
  rw [Nat.testBit_and, Nat.testBit_or, Nat.zero_testBit]
  by_cases h62 : i = 62
  · subst h62
    have h1 : t.testBit 62 = false := Nat.testBit_lt_two_pow ht
    have h2 : VALID.testBit 62 = false := by
      rw [VALID, Nat.testBit_two_pow]; simp
    simp [h1, h2]
  · have h3 : DIRTY.testBit i = false := by
      rw [DIRTY, Nat.testBit_two_pow]
      simp; omega
    simp [h3]

lemma shifted_tag_lt {addr sh : Nat} (ha : addr < 2 ^ 64) (hsh : 2 ≤ sh) :
    addr >>> sh < 2 ^ 62 := by
  rw [Nat.shiftRight_eq_div_pow]
  apply Nat.div_lt_of_lt_mul
  calc addr < 2 ^ 64 := ha
  _ ≤ 2 ^ sh * 2 ^ 62 := by
    rw [← pow_add]
    exact Nat.pow_le_pow_right (by norm_num) (by omega)

/-! Helper lemmas: flat-array segments. -/

lemma subBlock_length_of_fit {l : List Nat} {base len : Nat} (h : base + len ≤ l.length) :
    (subBlock l base len).length = len := by
  simp [subBlock]; omega

lemma putBlock_length {l b : List Nat} {base len : Nat} (hb : b.length = len)
    (h : base + len ≤ l.length) : (putBlock l base len b).length = l.length := by
  simp [putBlock, hb]; omega

lemma subBlock_putBlock_self {l b : List Nat} {base len : Nat} (hb : b.length = len)
    (h : base + len ≤ l.length) : subBlock (putBlock l base len b) base len = b := by
  unfold subBlock putBlock
  rw [List.append_assoc, List.drop_left' (by simp; omega), List.take_left' hb]

lemma subBlock_putBlock_left {l b : List Nat} {base len base' len' : Nat}
    (h1 : base' + len' ≤ base) (h2 : base ≤ l.length) :
    subBlock (putBlock l base len b) base' len' = subBlock l base' len' := by
  unfold subBlock putBlock
  rw [List.append_assoc, List.drop_append_eq_append_drop, List.take_append_eq_append_take]
  have hlt : (List.take base l).length = base := by simp; omega
  have h3 : len' - ((List.take base l).drop base').length = 0 := by
    simp [hlt]; omega
  rw [h3, List.take_zero, List.append_nil, List.drop_take, List.take_take,
    Nat.min_eq_left (by omega)]

lemma subBlock_putBlock_right {l b : List Nat} {base len base' len' : Nat}
    (hb : b.length = len) (h1 : base + len ≤ base') (h2 : base ≤ l.length) :
    subBlock (putBlock l base len b) base' len' = subBlock l base' len' := by
  unfold subBlock putBlock
  rw [List.drop_append_eq_append_drop]
  have hlt : (List.take base l ++ b).length = base + len := by simp [hb]; omega
  rw [List.drop_eq_nil_of_le (by rw [hlt]; omega), List.nil_append, hlt,
    List.drop_drop]
  have h3 : base + len + (base' - (base + len)) = base' := by omega
  rw [h3]

lemma getD_subBlock {l : List Nat} {base len j : Nat} (hj : j < len) :
    (subBlock l base len).getD j 0 = l.getD (base + j) 0 := by
  unfold subBlock
  rw [List.getD_eq_getElem?_getD, List.getD_eq_getElem?_getD,
    List.getElem?_take_of_lt hj, List.getElem?_drop]

lemma putBlock_subBlock (l : List Nat) (base len : Nat) :
    putBlock l base len (subBlock l base len) = l := by
  unfold putBlock subBlock
  rw [List.append_assoc]
  have h1 : List.drop (base + len) l = (l.drop base).drop len := by
    rw [List.drop_drop]
  rw [h1, List.take_append_drop, List.take_append_drop]

/-! Helper lemmas: the LRU move-to-front and rotation are permutations. -/

lemma findPos_some {k : Nat} :
    ∀ {l : List Nat} {i : Nat}, findPos k l = some i → i < l.length ∧ l.getD i 0 = k := by
  intro l
  induction l with
  | nil => intro i h; simp [findPos] at h
  | cons x xs ih =>
    intro i h
    by_cases hx : (x == k) = true
    · rw [findPos, if_pos hx] at h
      cases h
      refine ⟨by simp, ?_⟩
      simp at hx
      simpa using hx
    · rw [findPos, if_neg hx] at h
      rcases Option.map_eq_some'.1 h with ⟨j, hj, rfl⟩
      obtain ⟨h1, h2⟩ := ih hj
      exact ⟨by simpa using h1, by simpa using h2⟩

lemma promote_perm (block : List Nat) (k : Nat) :
    (match findPos k block with
      | some i => k :: (block.take i ++ block.drop (i + 1))
      | none => block).Perm block := by
  cases h : findPos k block with
  | none => exact List.Perm.refl _
  | some i =>
    obtain ⟨hlen, hget⟩ := findPos_some h
    have hb : block = block.take i ++ k :: block.drop (i + 1) := by
      conv_lhs => rw [← List.take_append_drop i block]
      congr 1
      rw [List.drop_eq_getElem_cons hlen]
      congr 1
      rw [← hget, List.getD_eq_getElem?_getD, List.getElem?_eq_getElem hlen]
      rfl
    conv_rhs => rw [hb]
    exact List.perm_middle.symm

lemma promote_length (block : List Nat) (k : Nat) :
    (match findPos k block with
      | some i => k :: (block.take i ++ block.drop (i + 1))
      | none => block).length = block.length :=
  (promote_perm block k).length_eq

lemma rotate_perm {block : List Nat} {len : Nat} (hlen : block.length = len)
    (h1 : 1 ≤ len) :
    (block.getD (len - 1) 0 :: block.take (len - 1)).Perm block := by
  have hne : block ≠ [] := by
    intro h; rw [h] at hlen; simp at hlen; omega
  have hget : block.getD (len - 1) 0 = block.getLast hne := by
    rw [List.getLast_eq_getElem, List.getD_eq_getElem?_getD,
      List.getElem?_eq_getElem (by omega)]
    simp [hlen]
  have htake : block.take (len - 1) = block.dropLast := by
    rw [List.dropLast_eq_take, hlen]
  rw [hget, htake]
  have hp : (block.getLast hne :: block.dropLast).Perm
      (block.dropLast ++ [block.getLast hne]) := (List.perm_append_singleton _ _).symm
  rw [List.dropLast_concat_getLast hne] at hp
  exact hp

/-! Helper lemmas: preservation of the structural invariant. -/

lemma idx_lt_sets {sets : Nat} (h : 1 ≤ sets) (x : Nat) : x &&& (sets - 1) < sets :=
  lt_of_le_of_lt Nat.and_le_right (by omega)

lemma base_fit {sets ways idx : Nat} (hidx : idx < sets) :
    idx * ways + ways ≤ sets * ways := by
  have h : (idx + 1) * ways ≤ sets * ways := Nat.mul_le_mul_right ways hidx
  calc idx * ways + ways = (idx + 1) * ways := by ring
  _ ≤ sets * ways := h

lemma bumpAccess_inv {s : CacheState} (h : CacheInv s) (n : Nat) (w : Bool) :
    CacheInv (bumpAccess s n w) := by
  cases w <;> exact h

lemma bumpMiss_inv {s : CacheState} (h : CacheInv s) (w : Bool) :
    CacheInv (bumpMiss s w) := by
  cases w <;> exact h

lemma set_tags_inv {s : CacheState} (h : CacheInv s) (p v : Nat) :
    CacheInv { s with tags := s.tags.set p v } := by
  obtain ⟨h1, h2, h3, h4, h5, h6⟩ := h
  exact ⟨h1, h2, h3, by simpa using h4, h5, h6⟩

lemma putBlock_block_inv {s : CacheState} (h : CacheInv s) {idx : Nat}
    (hidx : idx < s.sets) {b : List Nat}
    (hperm : b.Perm (subBlock s.lru (idx * s.ways) s.ways)) :
    CacheInv { s with lru := putBlock s.lru (idx * s.ways) s.ways b } := by
  obtain ⟨h1, h2, h3, h4, h5, h6⟩ := h
  have hfit : idx * s.ways + s.ways ≤ s.lru.length := by
    rw [h5]; exact base_fit hidx
  have hblen : (subBlock s.lru (idx * s.ways) s.ways).length = s.ways :=
    subBlock_length_of_fit hfit
  have hblen' : b.length = s.ways := by rw [hperm.length_eq, hblen]
  refine ⟨h1, h2, h3, h4, ?_, ?_⟩
  · simpa [putBlock_length hblen' hfit] using h5
  · intro i hi
    rcases lt_trichotomy i idx with hlt | heq | hgt
    · have hdisj : i * s.ways + s.ways ≤ idx * s.ways := by
        calc i * s.ways + s.ways = (i + 1) * s.ways := by ring
        _ ≤ idx * s.ways := Nat.mul_le_mul_right s.ways hlt
      rw [subBlock_putBlock_left hdisj (by omega)]
      exact h6 i hi
    · subst heq
      rw [subBlock_putBlock_self hblen' hfit]
      exact hperm.trans (h6 i hi)
    · have hdisj : idx * s.ways + s.ways ≤ i * s.ways := by
        calc idx * s.ways + s.ways = (idx + 1) * s.ways := by ring
        _ ≤ i * s.ways := Nat.mul_le_mul_right s.ways hgt
      rw [subBlock_putBlock_right hblen' hdisj (by omega)]
      exact h6 i hi

lemma check_tag_inv {s : CacheState} (h : CacheInv s) (a : Nat) :
    CacheInv (check_tag s a).1 := by
  simp only [check_tag]
  split
  · exact putBlock_block_inv h (idx_lt_sets h.1 _) (promote_perm _ _)
  · exact h

lemma victimize_inv {s : CacheState} (h : CacheInv s) (a : Nat) :
    CacheInv (victimize s a).1 := by
  obtain ⟨h1, h2, h3, h4, h5, h6⟩ := h
  simp only [victimize]
  have hidx : ((a >>> s.idx_shift) &&& (s.sets - 1)) < s.sets := idx_lt_sets h1 _
  have hfit : ((a >>> s.idx_shift) &&& (s.sets - 1)) * s.ways + s.ways ≤ s.lru.length := by
    rw [h5]; exact base_fit hidx
  have hblen : (subBlock s.lru (((a >>> s.idx_shift) &&& (s.sets - 1)) * s.ways) s.ways).length
      = s.ways := subBlock_length_of_fit hfit
  have hgd : s.lru.getD (((a >>> s.idx_shift) &&& (s.sets - 1)) * s.ways + s.ways - 1) 0 =
      (subBlock s.lru (((a >>> s.idx_shift) &&& (s.sets - 1)) * s.ways) s.ways).getD
        (s.ways - 1) 0 := by
    rw [getD_subBlock (by omega)]
    congr 1
    omega
  have hperm : (s.lru.getD (((a >>> s.idx_shift) &&& (s.sets - 1)) * s.ways + s.ways - 1) 0 ::
      (subBlock s.lru (((a >>> s.idx_shift) &&& (s.sets - 1)) * s.ways) s.ways).take
        (s.ways - 1)).Perm
      (subBlock s.lru (((a >>> s.idx_shift) &&& (s.sets - 1)) * s.ways) s.ways) := by
    rw [hgd]
    exact rotate_perm hblen h2
  exact putBlock_block_inv
    (set_tags_inv ⟨h1, h2, h3, h4, h5, h6⟩
      (((a >>> s.idx_shift) &&& (s.sets - 1)) * s.ways +
        s.lru.getD (((a >>> s.idx_shift) &&& (s.sets - 1)) * s.ways + s.ways - 1) 0)
      ((a >>> s.idx_shift) ||| VALID))
    hidx hperm

lemma inv_set_writebacks {s : CacheState} (h : CacheInv s) (x : Nat) :
    CacheInv { s with writebacks := x } := h

lemma access_fst (s : CacheState) (a n : Nat) (w : Bool) :
    (access s a n w).1 =
      (match check_tag (bumpAccess s n w) a with
       | (s1, some p) =>
          (match w with
           | true => { s1 with tags := s1.tags.set p ((s1.tags.getD p 0) ||| DIRTY) }
           | false => s1)
       | (s1, none) =>
          (match w with
           | true =>
             (match check_tag
                 (if (victimize (bumpMiss s1 true) a).2 &&& (VALID ||| DIRTY) = VALID ||| DIRTY then
                    { (victimize (bumpMiss s1 true) a).1 with
                        writebacks := w64 ((victimize (bumpMiss s1 true) a).1.writebacks + 1) }
                  else (victimize (bumpMiss s1 true) a).1) a with
              | (s', some p) => { s' with tags := s'.tags.set p ((s'.tags.getD p 0) ||| DIRTY) }
              | (s', none) => s')
           | false =>
             (if (victimize (bumpMiss s1 false) a).2 &&& (VALID ||| DIRTY) = VALID ||| DIRTY then
                { (victimize (bumpMiss s1 false) a).1 with
                    writebacks := w64 ((victimize (bumpMiss s1 false) a).1.writebacks + 1) }
              else (victimize (bumpMiss s1 false) a).1))) := by
  simp only [access, accessWith]
  rcases check_tag (bumpAccess s n w) a with ⟨s1, o⟩
  cases o <;> cases w <;> rfl

lemma access_snd (s : CacheState) (a n : Nat) (w : Bool) :
    (access s a n w).2 =
      (match check_tag (bumpAccess s n w) a with
       | (_, some _) => []
       | (s1, none) =>
          let s3 := (victimize (bumpMiss s1 w) a).1
          let victim := (victimize (bumpMiss s1 w) a).2
          let s4 := if victim &&& (VALID ||| DIRTY) = VALID ||| DIRTY then
              { s3 with writebacks := w64 (s3.writebacks + 1) } else s3
          (if victim &&& (VALID ||| DIRTY) = VALID ||| DIRTY ∧ s3.has_handler = true then
             [⟨w64 ((victim &&& not64 (VALID ||| DIRTY)) <<< s3.idx_shift), s3.linesz, true⟩]
           else []) ++
          (if s4.has_handler = true then
             [⟨a &&& not64 (s4.linesz - 1), s4.linesz, false⟩]
           else [])) := by
  simp only [access, accessWith]
  rcases check_tag (bumpAccess s n w) a with ⟨s1, o⟩
  cases o <;> cases w <;> rfl

lemma ite_wb_has_handler (c : Prop) [Decidable c] (s3 : CacheState) (x : Nat) :
    (if c then { s3 with writebacks := x } else s3).has_handler = s3.has_handler := by
  split <;> rfl

lemma ite_wb_tags (c : Prop) [Decidable c] (s3 : CacheState) (x : Nat) :
    (if c then { s3 with writebacks := x } else s3).tags = s3.tags := by
  split <;> rfl

lemma ite_wb_lru (c : Prop) [Decidable c] (s3 : CacheState) (x : Nat) :
    (if c then { s3 with writebacks := x } else s3).lru = s3.lru := by
  split <;> rfl

lemma ite_wb_read_misses (c : Prop) [Decidable c] (s3 : CacheState) (x : Nat) :
    (if c then { s3 with writebacks := x } else s3).read_misses = s3.read_misses := by
  split <;> rfl

lemma ite_wb_write_misses (c : Prop) [Decidable c] (s3 : CacheState) (x : Nat) :
    (if c then { s3 with writebacks := x } else s3).write_misses = s3.write_misses := by
  split <;> rfl

lemma access_inv {s : CacheState} (h : CacheInv s) (a n : Nat) (w : Bool) :
    CacheInv (access s a n w).1 := by
  rw [access_fst]
  have h0 := bumpAccess_inv h n w
  rcases hc : check_tag (bumpAccess s n w) a with ⟨s1, o⟩
  have hs1 : CacheInv s1 := by
    have h' := check_tag_inv h0 a
    rw [hc] at h'
    exact h'
  cases o with
  | some p =>
    cases w
    · exact hs1
    · exact set_tags_inv hs1 p _
  | none =>
    cases w with
    | false =>
      have h3 := victimize_inv (bumpMiss_inv hs1 false) a
      dsimp only
      split
      · exact inv_set_writebacks h3 _
      · exact h3
    | true =>
      have h3 := victimize_inv (bumpMiss_inv hs1 true) a
      have hs4 : CacheInv
          (if (victimize (bumpMiss s1 true) a).2 &&& (VALID ||| DIRTY) = VALID ||| DIRTY then
             { (victimize (bumpMiss s1 true) a).1 with
                 writebacks := w64 ((victimize (bumpMiss s1 true) a).1.writebacks + 1) }
           else (victimize (bumpMiss s1 true) a).1) := by
        split
        · exact inv_set_writebacks h3 _
        · exact h3
      dsimp only
      rcases hc2 : check_tag
          (if (victimize (bumpMiss s1 true) a).2 &&& (VALID ||| DIRTY) = VALID ||| DIRTY then
             { (victimize (bumpMiss s1 true) a).1 with
                 writebacks := w64 ((victimize (bumpMiss s1 true) a).1.writebacks + 1) }
           else (victimize (bumpMiss s1 true) a).1) a with ⟨s', o'⟩
      have hs' : CacheInv s' := by
        have h' := check_tag_inv hs4 a
        rw [hc2] at h'
        exact h'
      cases o' with
      | some p => exact set_tags_inv hs' p _
      | none => exact hs'

/-! Helper lemmas: the freshly initialized state. -/

lemma repBlocks_length (n : Nat) (b : List Nat) : (repBlocks n b).length = n * b.length := by
  induction n with
  | zero => simp [repBlocks]
  | succ m ih => simp [repBlocks, ih]; ring

lemma subBlock_repBlocks {b : List Nat} {n i L : Nat} (hb : b.length = L) (hi : i < n) :
    subBlock (repBlocks n b) (i * L) L = b := by
  induction n generalizing i with
  | zero => omega
  | succ m ih =>
    cases i with
    | zero =>
      simp only [repBlocks, subBlock, Nat.zero_mul, List.drop_zero]
      rw [List.take_append_of_le_length (by omega)]
      rw [← hb, List.take_length]
    | succ j =>
      have hj : j < m := by omega
      have harith : (j + 1) * L = b.length + j * L := by rw [hb]; ring
      simp only [repBlocks, subBlock, harith]
      rw [List.drop_append]
      exact ih hj

lemma getD_repBlocks {b : List Nat} {n i L j : Nat} (hb : b.length = L) (hi : i < n)
    (hj : j < L) : (repBlocks n b).getD (i * L + j) 0 = b.getD j 0 := by
  rw [← subBlock_repBlocks hb hi, getD_subBlock hj, subBlock_repBlocks hb hi]

lemma initBlock_getD {ways j : Nat} (hj : j < ways) :
    (initBlock ways).getD j 0 = ways - j - 1 := by
  rw [initBlock, List.getD_eq_getElem?_getD, List.getElem?_eq_getElem (by simpa using hj)]
  simp

lemma initBlock_perm (ways : Nat) : (initBlock ways).Perm (List.range ways) := by
  have h : initBlock ways = (List.range ways).reverse := by
    apply List.ext_getElem
    · simp [initBlock]
    · intro i h1 h2
      simp only [initBlock] at h1 ⊢
      rw [List.getElem_map, List.getElem_reverse]
      simp only [List.getElem_range]
      simp only [List.length_map, List.length_range] at h1
      simp only [List.length_reverse, List.length_range] at h2
      simp only [List.length_range]
      omega
  rw [h]
  exact List.reverse_perm _

lemma initOk_facts {sets linesz : Nat} (h : initOk sets linesz = true) :
    1 ≤ sets ∧ 8 ≤ linesz ∧ sets &&& (sets - 1) = 0 ∧ linesz &&& (linesz - 1) = 0 := by
  simp only [initOk, Bool.and_eq_true, Bool.not_eq_true', Bool.or_eq_false_iff,
    beq_eq_false_iff_ne, ne_eq, bne_eq_false_iff_eq, decide_eq_false_iff_not,
    Nat.not_lt] at h
  obtain ⟨⟨h1, h2⟩, h3, h4⟩ := h
  exact ⟨by omega, by omega, h2, h4⟩

lemma idxShiftLoop_eq_log2 : ∀ fuel x, x ≤ fuel → idxShiftLoop fuel x = Nat.log2 x := by
  intro fuel
  induction fuel with
  | zero =>
    intro x hx
    have hx0 : x = 0 := by omega
    subst hx0
    rw [idxShiftLoop, Nat.log2]
    rw [if_neg (by omega)]
  | succ f ih =>
    intro x hx
    rw [idxShiftLoop]
    by_cases h1 : 1 < x
    · rw [if_pos h1, Nat.shiftRight_one, ih (x / 2) (by omega)]
      conv_rhs => rw [Nat.log2]
      rw [if_pos (by omega)]
    · rw [if_neg h1]
      conv_rhs => rw [Nat.log2]
      rw [if_neg (by omega)]

lemma mkCache_inv {sets ways linesz : Nat} (hg : validGeom sets ways linesz) :
    CacheInv (mkCache sets ways linesz) := by
  obtain ⟨hok, hways⟩ := hg
  obtain ⟨hsets, hlinesz, _, _⟩ := initOk_facts hok
  refine ⟨hsets, hways, ?_, ?_, ?_, ?_⟩
  · show 3 ≤ idxShiftLoop linesz linesz
    rw [idxShiftLoop_eq_log2 linesz linesz le_rfl, Nat.le_log2 (by omega)]
    simpa using hlinesz
  · simp [mkCache]
  · show (repBlocks sets (initBlock ways)).length = sets * ways
    rw [repBlocks_length]
    simp [initBlock]
  · intro i hi
    have hi' : i < sets := hi
    have hlen : (initBlock ways).length = ways := by simp [initBlock]
    show (subBlock (repBlocks sets (initBlock ways)) (i * ways) ways).Perm (List.range ways)
    rw [subBlock_repBlocks hlen hi']
    exact initBlock_perm ways

lemma reachable_inv {sets ways linesz : Nat} {s : CacheState}
    (hg : validGeom sets ways linesz) (hr : Reachable sets ways linesz s) : CacheInv s := by
  induction hr with
  | init => exact mkCache_inv hg
  | step_access a n w _ ih => exact access_inv ih a n w
  | step_check a _ ih => exact check_tag_inv ih a
  | step_victim a _ ih => exact victimize_inv ih a
  | step_handler b _ ih => exact ih

/-! Helper lemmas: hit and miss characterization of the tag lookup. -/

lemma check_tag_snd_eq (s : CacheState) (a : Nat) :
    (check_tag s a).2 =
      ((List.range s.ways).find? (fun k => ((a >>> s.idx_shift) ||| VALID) ==
          ((s.tags.getD (((a >>> s.idx_shift) &&& (s.sets - 1)) * s.ways + k) 0) &&&
            not64 DIRTY))).map
        (fun k => ((a >>> s.idx_shift) &&& (s.sets - 1)) * s.ways + k) := by
  simp only [check_tag]
  split
  · rename_i k heq
    rw [heq]
    rfl
  · rename_i heq
    rw [heq]
    rfl

lemma check_tag_miss_of_zero {s : CacheState} (hz : ∀ j, s.tags.getD j 0 = 0) (a : Nat) :
    (check_tag s a).2 = none := by
  rw [check_tag_snd_eq, Option.map_eq_none', List.find?_eq_none]
  intro k _
  rw [hz, Nat.zero_and]
  simp only [beq_iff_eq]
  exact tag_ne_zero _

lemma check_tag_isSome_of_match {s : CacheState} {a k : Nat} (hk : k < s.ways)
    (hmatch : ((s.tags.getD (((a >>> s.idx_shift) &&& (s.sets - 1)) * s.ways + k) 0) &&&
        not64 DIRTY) = (a >>> s.idx_shift) ||| VALID) :
    ((check_tag s a).2).isSome = true := by
  rw [check_tag_snd_eq, Option.isSome_map']
  rw [List.find?_isSome]
  exact ⟨k, List.mem_range.2 hk, by rw [hmatch]; simp⟩

lemma check_tag_some_match {s : CacheState} {a p : Nat}
    (hp : (check_tag s a).2 = some p) :
    (s.tags.getD p 0) &&& not64 DIRTY = (a >>> s.idx_shift) ||| VALID := by
  rw [check_tag_snd_eq] at hp
  rcases Option.map_eq_some'.1 hp with ⟨k, hk, rfl⟩
  have hpred := List.find?_some hk
  simp only [beq_iff_eq] at hpred
  exact hpred.symm

lemma victimize_slot_match {s : CacheState} (h : CacheInv s) {a : Nat} (ha : a < 2 ^ 64) :
    ∃ k, k < s.ways ∧
      ((victimize s a).1.tags.getD (((a >>> s.idx_shift) &&& (s.sets - 1)) * s.ways + k) 0)
          &&& not64 DIRTY = (a >>> s.idx_shift) ||| VALID := by
  obtain ⟨h1, h2, h3, h4, h5, h6⟩ := h
  have hidx : ((a >>> s.idx_shift) &&& (s.sets - 1)) < s.sets := idx_lt_sets h1 _
  have hfitl : ((a >>> s.idx_shift) &&& (s.sets - 1)) * s.ways + s.ways ≤ s.lru.length := by
    rw [h5]; exact base_fit hidx
  have hblen : (subBlock s.lru (((a >>> s.idx_shift) &&& (s.sets - 1)) * s.ways) s.ways).length
      = s.ways := subBlock_length_of_fit hfitl
  have hvmem : s.lru.getD (((a >>> s.idx_shift) &&& (s.sets - 1)) * s.ways + s.ways - 1) 0 <
      s.ways := by
    have hgd : s.lru.getD (((a >>> s.idx_shift) &&& (s.sets - 1)) * s.ways + s.ways - 1) 0 =
        (subBlock s.lru (((a >>> s.idx_shift) &&& (s.sets - 1)) * s.ways) s.ways).getD
          (s.ways - 1) 0 := by
      rw [getD_subBlock (by omega)]
      congr 1
      omega
    have hlt : s.ways - 1 <
        (subBlock s.lru (((a >>> s.idx_shift) &&& (s.sets - 1)) * s.ways) s.ways).length := by
      omega
    have hmem : (subBlock s.lru (((a >>> s.idx_shift) &&& (s.sets - 1)) * s.ways) s.ways).getD
        (s.ways - 1) 0 ∈
        subBlock s.lru (((a >>> s.idx_shift) &&& (s.sets - 1)) * s.ways) s.ways := by
      rw [List.getD_eq_getElem?_getD, List.getElem?_eq_getElem hlt]
      exact List.getElem_mem hlt
    rw [hgd]
    exact List.mem_range.1 ((h6 _ hidx).mem_iff.1 hmem)
  refine ⟨s.lru.getD (((a >>> s.idx_shift) &&& (s.sets - 1)) * s.ways + s.ways - 1) 0,
    hvmem, ?_⟩
  have hfit : ((a >>> s.idx_shift) &&& (s.sets - 1)) * s.ways +
      s.lru.getD (((a >>> s.idx_shift) &&& (s.sets - 1)) * s.ways + s.ways - 1) 0 <
      s.tags.length := by
    rw [h4]
    have := @base_fit s.sets s.ways _ hidx
    omega
  have hset : (victimize s a).1.tags.getD
      (((a >>> s.idx_shift) &&& (s.sets - 1)) * s.ways +
        s.lru.getD (((a >>> s.idx_shift) &&& (s.sets - 1)) * s.ways + s.ways - 1) 0) 0 =
      (a >>> s.idx_shift) ||| VALID := by
    show (s.tags.set _ _).getD _ 0 = _
    rw [List.getD_eq_getElem?_getD, List.getElem?_set_self hfit]
    rfl
  rw [hset]
  exact tag_and_notDirty (shifted_tag_lt ha (by omega))

/-! Helper lemmas: counter and state effects of one access along each path. -/

lemma access_hit_counters {s : CacheState} {a n : Nat} {w : Bool}
    (h : ((check_tag s a).2).isSome = true) :
    (access s a n w).1.read_misses = s.read_misses ∧
    (access s a n w).1.write_misses = s.write_misses ∧
    (access s a n w).1.writebacks = s.writebacks ∧
    (access s a n w).2 = [] := by
  have hb : (check_tag (bumpAccess s n w) a).2 = (check_tag s a).2 := by
    rw [check_tag_bumpAccess]
  rcases hp : (check_tag s a).2 with _ | p
  · rw [hp] at h; simp at h
  rcases hc : check_tag (bumpAccess s n w) a with ⟨s1, o⟩
  have ho : o = some p := by
    have := hb
    rw [hc, hp] at this
    exact this
  subst ho
  have hs1r : s1.read_misses = s.read_misses := by
    have h1 := check_tag_read_misses (bumpAccess s n w) a
    rw [hc] at h1
    rw [h1, bumpAccess_read_misses]
  have hs1w : s1.write_misses = s.write_misses := by
    have h1 := check_tag_write_misses (bumpAccess s n w) a
    rw [hc] at h1
    rw [h1, bumpAccess_write_misses]
  have hs1wb : s1.writebacks = s.writebacks := by
    have h1 := check_tag_writebacks (bumpAccess s n w) a
    rw [hc] at h1
    rw [h1, bumpAccess_writebacks]
  rw [access_fst, access_snd, hc]
  cases w <;> exact ⟨hs1r, hs1w, hs1wb, rfl⟩

lemma store_refill_read_misses (s4 : CacheState) (a : Nat) :
    (match check_tag s4 a with
     | (s', some p) => { s' with tags := s'.tags.set p ((s'.tags.getD p 0) ||| DIRTY) }
     | (s', none) => s').read_misses = s4.read_misses := by
  rcases hc : check_tag s4 a with ⟨s', o'⟩
  have h1 := check_tag_read_misses s4 a
  rw [hc] at h1
  cases o' <;> simpa using h1

lemma store_refill_write_misses (s4 : CacheState) (a : Nat) :
    (match check_tag s4 a with
     | (s', some p) => { s' with tags := s'.tags.set p ((s'.tags.getD p 0) ||| DIRTY) }
     | (s', none) => s').write_misses = s4.write_misses := by
  rcases hc : check_tag s4 a with ⟨s', o'⟩
  have h1 := check_tag_write_misses s4 a
  rw [hc] at h1
  cases o' <;> simpa using h1

lemma store_refill_writebacks (s4 : CacheState) (a : Nat) :
    (match check_tag s4 a with
     | (s', some p) => { s' with tags := s'.tags.set p ((s'.tags.getD p 0) ||| DIRTY) }
     | (s', none) => s').writebacks = s4.writebacks := by
  rcases hc : check_tag s4 a with ⟨s', o'⟩
  have h1 := check_tag_writebacks s4 a
  rw [hc] at h1
  cases o' <;> simpa using h1

lemma access_miss_counters {s : CacheState} {a n : Nat} {w : Bool}
    (h : (check_tag s a).2 = none) :
    (access s a n w).1.read_misses = (bumpMiss s w).read_misses ∧
    (access s a n w).1.write_misses = (bumpMiss s w).write_misses := by
  have hb : check_tag (bumpAccess s n w) a = (bumpAccess (check_tag s a).1 n w, none) := by
    rw [check_tag_bumpAccess, h]
  have hceq : (check_tag s a).1 = s := check_tag_none_eq s a h
  rw [hceq] at hb
  rw [access_fst, hb]
  have hvic : ∀ w' : Bool,
      (victimize (bumpMiss (bumpAccess s n w) w') a).1 =
        bumpMiss (bumpAccess (victimize s a).1 n w) w' := by
    intro w'
    rw [victimize_bumpMiss, victimize_bumpAccess]
  cases w with
  | false =>
    rw [ite_wb_read_misses, ite_wb_write_misses, hvic false]
    cases s
    exact ⟨rfl, rfl⟩
  | true =>
    rw [store_refill_read_misses, store_refill_write_misses,
      ite_wb_read_misses, ite_wb_write_misses, hvic true]
    cases s
    exact ⟨rfl, rfl⟩

lemma ite_wb_linesz (c : Prop) [Decidable c] (s3 : CacheState) (x : Nat) :
    (if c then { s3 with writebacks := x } else s3).linesz = s3.linesz := by
  split <;> rfl

lemma access_miss_fwd {s : CacheState} {a n : Nat} {w : Bool}
    (h : (check_tag s a).2 = none) :
    (access s a n w).2 =
      (if (victimize s a).2 &&& (VALID ||| DIRTY) = VALID ||| DIRTY ∧
          s.has_handler = true then
        [⟨w64 (((victimize s a).2 &&& not64 (VALID ||| DIRTY)) <<< s.idx_shift),
          s.linesz, true⟩]
      else []) ++
      (if s.has_handler = true then
        [⟨a &&& not64 (s.linesz - 1), s.linesz, false⟩]
      else []) := by
  have hb : check_tag (bumpAccess s n w) a = (bumpAccess s n w, none) := by
    rw [check_tag_bumpAccess, h, check_tag_none_eq s a h]
  rw [access_snd, hb]
  simp only [ite_wb_has_handler, ite_wb_linesz]
  simp only [victimize_bumpMiss, victimize_bumpAccess, bumpMiss_has_handler,
    bumpAccess_has_handler, victimize_has_handler, bumpMiss_linesz, bumpAccess_linesz,
    victimize_linesz, bumpMiss_idx_shift, bumpAccess_idx_shift, victimize_idx_shift]

lemma access_miss_writebacks {s : CacheState} {a n : Nat} {w : Bool}
    (h : (check_tag s a).2 = none) :
    (access s a n w).1.writebacks =
      if (victimize s a).2 &&& (VALID ||| DIRTY) = VALID ||| DIRTY
      then w64 (s.writebacks + 1) else s.writebacks := by
  have hb : check_tag (bumpAccess s n w) a = (bumpAccess s n w, none) := by
    rw [check_tag_bumpAccess, h, check_tag_none_eq s a h]
  rw [access_fst, hb]
  cases w with
  | false =>
    simp only [victimize_bumpMiss, victimize_bumpAccess]
    split <;>
      simp only [bumpMiss_writebacks, bumpAccess_writebacks, victimize_writebacks]
  | true =>
    rw [store_refill_writebacks]
    simp only [victimize_bumpMiss, victimize_bumpAccess]
    split <;>
      simp only [bumpMiss_writebacks, bumpAccess_writebacks, victimize_writebacks]

lemma ite_wb_sets (c : Prop) [Decidable c] (s3 : CacheState) (x : Nat) :
    (if c then { s3 with writebacks := x } else s3).sets = s3.sets := by
  split <;> rfl

lemma ite_wb_ways (c : Prop) [Decidable c] (s3 : CacheState) (x : Nat) :
    (if c then { s3 with writebacks := x } else s3).ways = s3.ways := by
  split <;> rfl

lemma ite_wb_idx_shift (c : Prop) [Decidable c] (s3 : CacheState) (x : Nat) :
    (if c then { s3 with writebacks := x } else s3).idx_shift = s3.idx_shift := by
  split <;> rfl

lemma access_hit_state {s : CacheState} {a n : Nat} {w : Bool} {p : Nat}
    (h : (check_tag s a).2 = some p) :
    (access s a n w).1.tags =
      (match w with
       | true => s.tags.set p ((s.tags.getD p 0) ||| DIRTY)
       | false => s.tags) ∧
    (access s a n w).1.lru = (check_tag s a).1.lru := by
  have hb : check_tag (bumpAccess s n w) a = (bumpAccess (check_tag s a).1 n w, some p) := by
    rw [check_tag_bumpAccess, h]
  rw [access_fst, hb]
  cases w with
  | false => exact ⟨by rw [bumpAccess_tags, check_tag_tags], by rw [bumpAccess_lru]⟩
  | true =>
    constructor
    · show (bumpAccess (check_tag s a).1 n true).tags.set p
        ((bumpAccess (check_tag s a).1 n true).tags.getD p 0 ||| DIRTY) = _
      rw [bumpAccess_tags, check_tag_tags]
    · show (bumpAccess (check_tag s a).1 n true).lru = _
      rw [bumpAccess_lru]

lemma access_miss_load_state {s : CacheState} {a n : Nat}
    (h : (check_tag s a).2 = none) :
    (access s a n false).1.tags = (victimize s a).1.tags ∧
    (access s a n false).1.sets = s.sets ∧
    (access s a n false).1.ways = s.ways ∧
    (access s a n false).1.idx_shift = s.idx_shift := by
  have hb : check_tag (bumpAccess s n false) a = (bumpAccess s n false, none) := by
    rw [check_tag_bumpAccess, h, check_tag_none_eq s a h]
  rw [access_fst, hb]
  refine ⟨?_, ?_, ?_, ?_⟩
  · rw [ite_wb_tags, victimize_bumpMiss, victimize_bumpAccess]
    show (bumpMiss (bumpAccess (victimize s a).1 n false) false).tags = _
    rw [bumpMiss_tags, bumpAccess_tags]
  · rw [ite_wb_sets, victimize_bumpMiss, victimize_bumpAccess]
    show (bumpMiss (bumpAccess (victimize s a).1 n false) false).sets = _
    rw [bumpMiss_sets, bumpAccess_sets, victimize_sets]
  · rw [ite_wb_ways, victimize_bumpMiss, victimize_bumpAccess]
    show (bumpMiss (bumpAccess (victimize s a).1 n false) false).ways = _
    rw [bumpMiss_ways, bumpAccess_ways, victimize_ways]
  · rw [ite_wb_idx_shift, victimize_bumpMiss, victimize_bumpAccess]
    show (bumpMiss (bumpAccess (victimize s a).1 n false) false).idx_shift = _
    rw [bumpMiss_idx_shift, bumpAccess_idx_shift, victimize_idx_shift]

lemma getD_replicate_zero (m j : Nat) : (List.replicate m (0 : Nat)).getD j 0 = 0 := by
  rw [List.getD_eq_getElem?_getD, List.getElem?_replicate]
  split <;> rfl

/-- Claim C1: from a freshly constructed cache with any valid geometry, a first
`access(a, n, false)` misses (the read miss counter goes from 0 to 1 and the
write miss counter stays 0), and an immediately following second access to the
same address, with any size and either direction, hits (the lookup succeeds
and neither miss counter changes). -/
theorem first_access_misses_then_hits (sets ways linesz addr n : Nat)
    (hg : validGeom sets ways linesz) (ha : addr < 2 ^ 64) :
    (access (mkCache sets ways linesz) addr n false).1.read_misses = 1 ∧
    (access (mkCache sets ways linesz) addr n false).1.write_misses = 0 ∧
    ∀ n2 : Nat, ∀ w2 : Bool,
      ((check_tag (access (mkCache sets ways linesz) addr n false).1 addr).2).isSome
          = true ∧
      (access (access (mkCache sets ways linesz) addr n false).1 addr n2
          w2).1.read_misses = 1 ∧
      (access (access (mkCache sets ways linesz) addr n false).1 addr n2
          w2).1.write_misses = 0 := by
  have hInv := mkCache_inv hg
  have hmiss : (check_tag (mkCache sets ways linesz) addr).2 = none :=
    check_tag_miss_of_zero (fun j => getD_replicate_zero _ j) addr
  obtain ⟨hrm, hwm⟩ := access_miss_counters (n := n) (w := false) hmiss
  have hone : (access (mkCache sets ways linesz) addr n false).1.read_misses = 1 := by
    rw [hrm]
    show w64 (0 + 1) = 1
    norm_num [w64, U64]
  have hzero : (access (mkCache sets ways linesz) addr n false).1.write_misses = 0 := by
    rw [hwm]
    rfl
  refine ⟨hone, hzero, ?_⟩
  intro n2 w2
  obtain ⟨htags, hsets, hways, hshift⟩ := access_miss_load_state (n := n) hmiss
  obtain ⟨k, hk, hmatch⟩ := victimize_slot_match hInv ha
  have hhit : ((check_tag (access (mkCache sets ways linesz) addr n false).1 addr).2).isSome
      = true := by
    apply check_tag_isSome_of_match (k := k)
    · rw [hways]; exact hk
    · rw [htags, hsets, hways, hshift]; exact hmatch
  obtain ⟨h1, h2, _, _⟩ := access_hit_counters (n := n2) (w := w2) hhit
  exact ⟨hhit, by rw [h1, hone], by rw [h2, hzero]⟩

/-! Helper lemmas: the fully-associative variant coincides with the
set-associative one on a single set. -/

lemma fa_check_tag_eq : fa_check_tag = check_tag := rfl

lemma fa_victimize_eq {s : CacheState} (hs : s.sets = 1) (a : Nat) :
    fa_victimize s a = victimize s a := by
  unfold fa_victimize victimize
  rw [hs]
  simp only [Nat.sub_self, Nat.and_zero, Nat.zero_mul, Nat.zero_add, putBlock, subBlock,
    List.take_zero, List.nil_append, List.drop_zero, List.take_take,
    Nat.min_def]
  split
  · rfl
  · omega

lemma store_refill_sets (s4 : CacheState) (a : Nat) :
    (match check_tag s4 a with
     | (s', some p) => { s' with tags := s'.tags.set p ((s'.tags.getD p 0) ||| DIRTY) }
     | (s', none) => s').sets = s4.sets := by
  rcases hc : check_tag s4 a with ⟨s', o'⟩
  have h1 := check_tag_sets s4 a
  rw [hc] at h1
  cases o' <;> simpa using h1

lemma access_sets (s : CacheState) (a n : Nat) (w : Bool) :
    (access s a n w).1.sets = s.sets := by
  rw [access_fst]
  rcases hc : check_tag (bumpAccess s n w) a with ⟨s1, o⟩
  have hs1 : s1.sets = s.sets := by
    have h1 := check_tag_sets (bumpAccess s n w) a
    rw [hc] at h1
    rw [h1, bumpAccess_sets]
  cases o with
  | some p =>
    cases w
    · exact hs1
    · exact hs1
  | none =>
    cases w with
    | false =>
      rw [ite_wb_sets, victimize_sets, bumpMiss_sets, hs1]
    | true =>
      rw [store_refill_sets, ite_wb_sets, victimize_sets, bumpMiss_sets, hs1]

lemma fa_access_eq {s : CacheState} (hs : s.sets = 1) (a n : Nat) (w : Bool) :
    fa_access s a n w = access s a n w := by
  rw [fa_access, access, fa_check_tag_eq]
  simp only [accessWith]
  rcases hc : check_tag (bumpAccess s n w) a with ⟨s1, o⟩
  cases o with
  | some p => rfl
  | none =>
    have hs1 : (bumpMiss s1 w).sets = 1 := by
      rw [bumpMiss_sets]
      have h1 := check_tag_sets (bumpAccess s n w) a
      rw [hc] at h1
      rw [h1, bumpAccess_sets, hs]
    dsimp only
    rw [fa_victimize_eq hs1]

lemma fa_runTrace_eq {s : CacheState} (hs : s.sets = 1)
    (tr : List (Nat × Nat × Bool)) : fa_runTrace s tr = runTrace s tr := by
  induction tr generalizing s with
  | nil => rfl
  | cons hd t ih =>
    obtain ⟨a, n, w⟩ := hd
    have ih' := ih (s := (access s a n w).1) (by rw [access_sets]; exact hs)
    simp only [fa_runTrace, runTrace] at ih' ⊢
    simp only [runTraceWith]
    rw [fa_access_eq hs, ih']

/-! Helper lemmas: the power-of-two test `x & (x-1) == 0`. -/

lemma and_pred_eq_zero_iff {x : Nat} (hx : x ≠ 0) :
    x &&& (x - 1) = 0 ↔ ∃ k, x = 2 ^ k := by
  constructor
  · intro h
    by_cases hp : x = 2 ^ Nat.log2 x
    · exact ⟨_, hp⟩
    exfalso
    have h1 : 2 ^ Nat.log2 x ≤ x := Nat.log2_self_le hx
    have h2 : x < 2 ^ (Nat.log2 x + 1) := Nat.lt_log2_self
    have h3 : 2 ^ Nat.log2 x < x := lt_of_le_of_ne h1 (fun e => hp e.symm)
    have hb1 : x.testBit (Nat.log2 x) = true := by
      rw [Nat.testBit_to_div_mod]
      have hd : x / 2 ^ Nat.log2 x = 1 :=
        Nat.div_eq_of_lt_le (by omega) (by rw [pow_succ] at h2; omega)
      simp [hd]
    have hb2 : (x - 1).testBit (Nat.log2 x) = true := by
      rw [Nat.testBit_to_div_mod]
      have hd : (x - 1) / 2 ^ Nat.log2 x = 1 :=
        Nat.div_eq_of_lt_le (by omega) (by rw [pow_succ] at h2; omega)
      simp [hd]
    have hz := congrArg (fun y => y.testBit (Nat.log2 x)) h
    simp only [Nat.testBit_and, hb1, hb2, Bool.and_self, Nat.zero_testBit] at hz
    exact absurd hz (by simp)
  · rintro ⟨k, rfl⟩
    apply Nat.eq_of_testBit_eq
    intro i
    rw [Nat.testBit_and, Nat.testBit_two_pow_sub_one, Nat.testBit_two_pow,
      Nat.zero_testBit]
    by_cases hk : k = i
    · subst hk; simp
    · simp [hk]

/-- Claim C2: on a miss with a downstream handler configured, if the victim
word has both VALID and DIRTY set, the handler first receives a synthetic
write of exactly `linesz` bytes at the reconstructed victim address (the
victim tag bits shifted left by `idx_shift`, stored into a 64-bit value) and
the writeback counter increments; then in every miss case the handler
receives a synthetic read of exactly `linesz` bytes at the original address
aligned down to the line boundary, and the writeback call precedes the fill
read in the forwarding order. -/
theorem miss_forwards_writeback_then_fill (s : CacheState) (addr n : Nat) (w : Bool)
    (hh : s.has_handler = true) (hm : (check_tag s addr).2 = none) :
    (access s addr n w).2 =
      (if (victimize s addr).2 &&& (VALID ||| DIRTY) = VALID ||| DIRTY then
        [⟨w64 (((victimize s addr).2 &&& not64 (VALID ||| DIRTY)) <<< s.idx_shift),
          s.linesz, true⟩]
      else []) ++
      [⟨addr &&& not64 (s.linesz - 1), s.linesz, false⟩] ∧
    (access s addr n w).1.writebacks =
      (if (victimize s addr).2 &&& (VALID ||| DIRTY) = VALID ||| DIRTY then
        w64 (s.writebacks + 1) else s.writebacks) := by
  constructor
  · rw [access_miss_fwd hm]
    simp only [hh, and_true, if_true]
  · exact access_miss_writebacks hm

/-- Claim C2, witness: concrete two-level scenario exercising the theorem at a
state holding a dirty line. -/
theorem miss_forwards_writeback_then_fill_witness :
    (access { mkCache 1 1 8 with has_handler := true } 0 4 true).1.has_handler = true ∧
    (check_tag (access { mkCache 1 1 8 with has_handler := true } 0 4 true).1 16).2
        = none ∧
    (access (access { mkCache 1 1 8 with has_handler := true } 0 4 true).1 16 4
        false).2 =
      (if (victimize (access { mkCache 1 1 8 with has_handler := true } 0 4 true).1
            16).2 &&& (VALID ||| DIRTY) = VALID ||| DIRTY then
        [⟨w64 (((victimize (access { mkCache 1 1 8 with has_handler := true } 0 4
              true).1 16).2 &&& not64 (VALID ||| DIRTY)) <<<
            (access { mkCache 1 1 8 with has_handler := true } 0 4 true).1.idx_shift),
          (access { mkCache 1 1 8 with has_handler := true } 0 4 true).1.linesz, true⟩]
      else []) ++
      [⟨16 &&& not64
          ((access { mkCache 1 1 8 with has_handler := true } 0 4 true).1.linesz - 1),
        (access { mkCache 1 1 8 with has_handler := true } 0 4 true).1.linesz,
        false⟩] := by
  have hh : (access { mkCache 1 1 8 with has_handler := true } 0 4 true).1.has_handler
      = true := by decide
  have hm : (check_tag (access { mkCache 1 1 8 with has_handler := true } 0 4
      true).1 16).2 = none := by decide
  exact ⟨hh, hm, (miss_forwards_writeback_then_fill _ 16 4 false hh hm).1⟩

/-- Claim C1, witness: geometry 1:1:8, address 0, first read misses and a
second write access of different size hits. -/
theorem first_access_misses_then_hits_witness :
    validGeom 1 1 8 ∧
    (access (mkCache 1 1 8) 0 4 false).1.read_misses = 1 ∧
    (access (access (mkCache 1 1 8) 0 4 false).1 0 8 true).1.read_misses = 1 ∧
    (access (access (mkCache 1 1 8) 0 4 false).1 0 8 true).1.write_misses = 0 := by
  have h := first_access_misses_then_hits 1 1 8 0 4 (by decide) (by norm_num)
  exact ⟨by decide, h.1, (h.2.2 8 true).2.1, (h.2.2 8 true).2.2⟩

/-- Claim C3: in every state reachable from a freshly constructed cache with a
valid geometry by any sequence of `access`, `check_tag` and `victimize` calls,
every set's `ways` LRU entries are a permutation of `0..ways-1`; and the
construction itself puts way `ways - j - 1` at LRU position `j` of every set. -/
theorem reachable_lru_is_permutation (sets ways linesz : Nat) (s : CacheState)
    (hg : validGeom sets ways linesz) (hr : Reachable sets ways linesz s) :
    (∀ i < s.sets, (subBlock s.lru (i * s.ways) s.ways).Perm (List.range s.ways)) ∧
    (∀ i < sets, ∀ j < ways,
      (mkCache sets ways linesz).lru.getD (i * ways + j) 0 = ways - j - 1) := by
  constructor
  · exact (reachable_inv hg hr).2.2.2.2.2
  · intro i hi j hj
    show (repBlocks sets (initBlock ways)).getD (i * ways + j) 0 = ways - j - 1
    have hb : (initBlock ways).length = ways := by simp [initBlock]
    have h1 : (repBlocks sets (initBlock ways)).getD (i * ways + j) 0 =
        (initBlock ways).getD j 0 := by
      have := getD_repBlocks (b := initBlock ways) (n := sets) (i := i) (L := ways)
        (j := j) hb hi hj
      exact this
    rw [h1, initBlock_getD hj]

/-- Claim C3, witness: geometry 2:2:8 at the freshly constructed state. -/
theorem reachable_lru_is_permutation_witness :
    validGeom 2 2 8 ∧
    (subBlock (mkCache 2 2 8).lru (1 * (mkCache 2 2 8).ways)
        (mkCache 2 2 8).ways).Perm (List.range (mkCache 2 2 8).ways) ∧
    (mkCache 2 2 8).lru.getD (1 * 2 + 0) 0 = 2 - 0 - 1 := by
  have h := reachable_lru_is_permutation 2 2 8 (mkCache 2 2 8) (by decide) Reachable.init
  exact ⟨by decide, h.1 1 (by decide), h.2 1 (by decide) 0 (by decide)⟩

/-- Claim C4: `victimize` selects as victim the way stored at the set's last
LRU position, returns the prior contents of that way's tag slot, overwrites
the slot with `(addr >> idx_shift) | VALID` (a word that is valid and not
dirty), and rotates the set's LRU order: the victim way moves to position 0
and every other way moves one position toward the back. -/
theorem victimize_selects_last_lru_way (s : CacheState) (addr : Nat)
    (h : CacheInv s) (ha : addr < 2 ^ 64) :
    (victimize s addr).2 =
      s.tags.getD ((((addr >>> s.idx_shift) &&& (s.sets - 1)) * s.ways) +
        s.lru.getD ((((addr >>> s.idx_shift) &&& (s.sets - 1)) * s.ways) + s.ways - 1) 0)
        0 ∧
    (victimize s addr).1.tags =
      s.tags.set ((((addr >>> s.idx_shift) &&& (s.sets - 1)) * s.ways) +
        s.lru.getD ((((addr >>> s.idx_shift) &&& (s.sets - 1)) * s.ways) + s.ways - 1) 0)
        ((addr >>> s.idx_shift) ||| VALID) ∧
    ((addr >>> s.idx_shift) ||| VALID) &&& VALID = VALID ∧
    ((addr >>> s.idx_shift) ||| VALID) &&& DIRTY = 0 ∧
    (victimize s addr).1.lru.getD (((addr >>> s.idx_shift) &&& (s.sets - 1)) * s.ways) 0
      = s.lru.getD ((((addr >>> s.idx_shift) &&& (s.sets - 1)) * s.ways) + s.ways - 1) 0 ∧
    ∀ j, j + 1 < s.ways →
      (victimize s addr).1.lru.getD
          ((((addr >>> s.idx_shift) &&& (s.sets - 1)) * s.ways) + (j + 1)) 0 =
        s.lru.getD ((((addr >>> s.idx_shift) &&& (s.sets - 1)) * s.ways) + j) 0 := by
  obtain ⟨h1, h2, h3, h4, h5, h6⟩ := h
  have hidx : ((addr >>> s.idx_shift) &&& (s.sets - 1)) < s.sets := idx_lt_sets h1 _
  have hfit : ((addr >>> s.idx_shift) &&& (s.sets - 1)) * s.ways + s.ways ≤ s.lru.length := by
    rw [h5]; exact base_fit hidx
  have hblen : (subBlock s.lru (((addr >>> s.idx_shift) &&& (s.sets - 1)) * s.ways)
      s.ways).length = s.ways := subBlock_length_of_fit hfit
  have hblen' : (s.lru.getD ((((addr >>> s.idx_shift) &&& (s.sets - 1)) * s.ways) +
        s.ways - 1) 0 ::
      (subBlock s.lru (((addr >>> s.idx_shift) &&& (s.sets - 1)) * s.ways) s.ways).take
        (s.ways - 1)).length = s.ways := by
    simp only [List.length_cons, List.length_take, hblen]
    omega
  have hsub : subBlock (victimize s addr).1.lru
      (((addr >>> s.idx_shift) &&& (s.sets - 1)) * s.ways) s.ways =
      s.lru.getD ((((addr >>> s.idx_shift) &&& (s.sets - 1)) * s.ways) + s.ways - 1) 0 ::
      (subBlock s.lru (((addr >>> s.idx_shift) &&& (s.sets - 1)) * s.ways) s.ways).take
        (s.ways - 1) := by
    show subBlock (putBlock s.lru _ _ _) _ _ = _
    exact subBlock_putBlock_self hblen' hfit
  refine ⟨rfl, rfl, tag_and_VALID _, tag_and_DIRTY (shifted_tag_lt ha (by omega)), ?_, ?_⟩
  · have hg := @getD_subBlock (victimize s addr).1.lru
      (((addr >>> s.idx_shift) &&& (s.sets - 1)) * s.ways) s.ways 0 (by omega)
    rw [Nat.add_zero] at hg
    rw [← hg, hsub]
    rfl
  · intro j hj
    have hg := @getD_subBlock (victimize s addr).1.lru
      (((addr >>> s.idx_shift) &&& (s.sets - 1)) * s.ways) s.ways (j + 1) (by omega)
    rw [← hg, hsub]
    show ((subBlock s.lru (((addr >>> s.idx_shift) &&& (s.sets - 1)) * s.ways)
        s.ways).take (s.ways - 1)).getD j 0 = _
    have ht : ((subBlock s.lru (((addr >>> s.idx_shift) &&& (s.sets - 1)) * s.ways)
        s.ways).take (s.ways - 1)).getD j 0 =
        (subBlock s.lru (((addr >>> s.idx_shift) &&& (s.sets - 1)) * s.ways)
          s.ways).getD j 0 := by
      rw [List.getD_eq_getElem?_getD, List.getD_eq_getElem?_getD,
        List.getElem?_take_of_lt (by omega)]
    rw [ht, getD_subBlock (by omega)]

/-- Claim C4, witness: geometry 2:2:8, address 0, projected at the victim
return value and the two LRU positions of set 0. -/
theorem victimize_selects_last_lru_way_witness :
    CacheInv (mkCache 2 2 8) ∧
    (victimize (mkCache 2 2 8) 0).2 =
      (mkCache 2 2 8).tags.getD ((((0 >>> (mkCache 2 2 8).idx_shift) &&&
          ((mkCache 2 2 8).sets - 1)) * (mkCache 2 2 8).ways) +
        (mkCache 2 2 8).lru.getD ((((0 >>> (mkCache 2 2 8).idx_shift) &&&
            ((mkCache 2 2 8).sets - 1)) * (mkCache 2 2 8).ways) +
          (mkCache 2 2 8).ways - 1) 0) 0 ∧
    (victimize (mkCache 2 2 8) 0).1.lru.getD
        ((((0 >>> (mkCache 2 2 8).idx_shift) &&& ((mkCache 2 2 8).sets - 1)) *
          (mkCache 2 2 8).ways) + (0 + 1)) 0 =
      (mkCache 2 2 8).lru.getD ((((0 >>> (mkCache 2 2 8).idx_shift) &&&
          ((mkCache 2 2 8).sets - 1)) * (mkCache 2 2 8).ways) + 0) 0 := by
  have h := victimize_selects_last_lru_way (mkCache 2 2 8) 0 (by decide) (by norm_num)
  exact ⟨by decide, h.1, h.2.2.2.2.2 0 (by decide)⟩

/-- Claim C5: with a single set, the fully-associative variant is functionally
identical to the generic set-associative cache: every single access produces
the same state and the same forwarded calls, and therefore every finite trace
produces identical hit/miss outcomes, counters, tag and LRU tables, and
forwarding. -/
theorem fa_matches_set_associative (s : CacheState) (hs : s.sets = 1) :
    (∀ a n : Nat, ∀ w : Bool, fa_access s a n w = access s a n w) ∧
    ∀ tr : List (Nat × Nat × Bool), fa_runTrace s tr = runTrace s tr :=
  ⟨fun a n w => fa_access_eq hs a n w, fun tr => fa_runTrace_eq hs tr⟩

/-- Claim C5, witness: a concrete mixed read/write trace on geometry 1:4:8. -/
theorem fa_matches_set_associative_witness :
    (mkCache 1 4 8).sets = 1 ∧
    fa_runTrace (mkCache 1 4 8) [(0, 4, false), (8, 4, true), (0, 4, false), (64, 2, true)]
      = runTrace (mkCache 1 4 8) [(0, 4, false), (8, 4, true), (0, 4, false), (64, 2, true)] :=
  ⟨rfl, (fa_matches_set_associative (mkCache 1 4 8) rfl).2 _⟩

/-- Claim C6, counterexample: the claim requires construction validation to
fail when `ways = 0`, but the code's validation does not examine `ways`:
geometry `sets = 1, ways = 0, linesz = 8` passes the checks. -/
theorem c6_claim_false : c6_claim = False := by
  apply eq_false
  intro h
  have h2 := (h 1 0 8).mp (by decide)
  exact absurd h2.2.2.2 (by omega)

/-- Claim C6, amended: construction validation succeeds exactly when `sets`
is a power of two and `linesz` is a power of two at least 8; `ways` is not
validated at all. -/
theorem initOk_characterization (sets linesz : Nat) :
    initOk sets linesz = true ↔
      (∃ k, sets = 2 ^ k) ∧ 8 ≤ linesz ∧ (∃ k, linesz = 2 ^ k) := by
  constructor
  · intro h
    obtain ⟨h1, h2, h3, h4⟩ := initOk_facts h
    exact ⟨(and_pred_eq_zero_iff (by omega)).1 h3, h2,
      (and_pred_eq_zero_iff (by omega)).1 h4⟩
  · rintro ⟨⟨k1, rfl⟩, h2, ⟨k2, rfl⟩⟩
    have hp1 : (2 : Nat) ^ k1 ≠ 0 := (Nat.pos_pow_of_pos k1 (by norm_num)).ne'
    have hp2 : (2 : Nat) ^ k2 ≠ 0 := (Nat.pos_pow_of_pos k2 (by norm_num)).ne'
    simp only [initOk, Bool.and_eq_true, Bool.not_eq_true', Bool.or_eq_false_iff,
      beq_eq_false_iff_ne, ne_eq, bne_eq_false_iff_eq, decide_eq_false_iff_not,
      Nat.not_lt]
    exact ⟨⟨hp1, (and_pred_eq_zero_iff hp1).2 ⟨k1, rfl⟩⟩,
      h2, (and_pred_eq_zero_iff hp2).2 ⟨k2, rfl⟩⟩

/-- Claim C6, amended theorem witness: geometry 64:arbitrary:64 passes. -/
theorem initOk_characterization_witness : initOk 64 64 = true :=
  (initOk_characterization 64 64).mpr ⟨⟨6, rfl⟩, by norm_num, ⟨6, rfl⟩⟩

/-- Claim C7: an access that hits a resident line forwards nothing downstream,
leaves both miss counters and the writeback counter unchanged, changes the tag
table only by setting DIRTY on the hit slot when the access is a write (and
not at all on a read), and changes only the LRU order otherwise (the resulting
LRU table is exactly the one produced by the lookup promotion). -/
theorem hit_frame_effect (s : CacheState) (addr n p : Nat) (w : Bool)
    (h : (check_tag s addr).2 = some p) :
    (access s addr n w).2 = [] ∧
    (access s addr n w).1.read_misses = s.read_misses ∧
    (access s addr n w).1.write_misses = s.write_misses ∧
    (access s addr n w).1.writebacks = s.writebacks ∧
    (access s addr n w).1.tags =
      (match w with
       | true => s.tags.set p ((s.tags.getD p 0) ||| DIRTY)
       | false => s.tags) ∧
    (access s addr n w).1.lru = (check_tag s addr).1.lru := by
  have hiss : ((check_tag s addr).2).isSome = true := by rw [h]; rfl
  obtain ⟨h1, h2, h3, h4⟩ := access_hit_counters (n := n) (w := w) hiss
  obtain ⟨h5, h6⟩ := access_hit_state (n := n) (w := w) h
  exact ⟨h4, h1, h2, h3, h5, h6⟩

/-- Claim C7, witness: a state holding one valid line, write hit at address 0. -/
theorem hit_frame_effect_witness :
    (check_tag { mkCache 1 1 8 with tags := [VALID] } 0).2 = some 0 ∧
    (access { mkCache 1 1 8 with tags := [VALID] } 0 4 true).2 = [] ∧
    (access { mkCache 1 1 8 with tags := [VALID] } 0 4 true).1.writebacks =
      ({ mkCache 1 1 8 with tags := [VALID] } : CacheState).writebacks ∧
    (access { mkCache 1 1 8 with tags := [VALID] } 0 4 true).1.tags =
      (match true with
       | true => ({ mkCache 1 1 8 with tags := [VALID] } : CacheState).tags.set 0
          ((({ mkCache 1 1 8 with tags := [VALID] } : CacheState).tags.getD 0 0) ||| DIRTY)
       | false => ({ mkCache 1 1 8 with tags := [VALID] } : CacheState).tags) := by
  have h : (check_tag { mkCache 1 1 8 with tags := [VALID] } 0).2 = some 0 := by decide
  have hh := hit_frame_effect { mkCache 1 1 8 with tags := [VALID] } 0 4 0 true h
  exact ⟨h, hh.1, hh.2.2.2.1, hh.2.2.2.2.1⟩

/-- Claim C8: after `victimize` fills a line for an address, the re-lookup of
that address always succeeds (the lookup returns a slot), and any returned
slot holds the just-filled line's tag word, so the C++ store-miss path's
unguarded dereference `*check_tag(addr) |= DIRTY` never dereferences null. -/
theorem store_miss_refill_always_hits (s : CacheState) (addr : Nat)
    (h : CacheInv s) (ha : addr < 2 ^ 64) :
    ((check_tag (victimize s addr).1 addr).2).isSome = true ∧
    ∀ p, (check_tag (victimize s addr).1 addr).2 = some p →
      ((victimize s addr).1.tags.getD p 0) &&& not64 DIRTY =
        (addr >>> s.idx_shift) ||| VALID := by
  obtain ⟨k, hk, hmatch⟩ := victimize_slot_match h ha
  constructor
  · exact check_tag_isSome_of_match hk hmatch
  · intro p hp
    exact check_tag_some_match hp

/-- Claim C8, witness: geometry 1:2:8, address 0. -/
theorem store_miss_refill_always_hits_witness :
    CacheInv (mkCache 1 2 8) ∧
    ((check_tag (victimize (mkCache 1 2 8) 0).1 0).2).isSome = true := by
  have h := store_miss_refill_always_hits (mkCache 1 2 8) 0 (by decide) (by norm_num)
  exact ⟨by decide, h.1⟩

/-- Claim C9: when a miss evicts a victim with both VALID and DIRTY set and no
downstream handler is configured, the writeback counter still increments;
only the forwarding is skipped (no call is made at all). -/
theorem writeback_counted_without_handler (s : CacheState) (addr n : Nat) (w : Bool)
    (hh : s.has_handler = false) (hm : (check_tag s addr).2 = none)
    (hd : (victimize s addr).2 &&& (VALID ||| DIRTY) = VALID ||| DIRTY) :
    (access s addr n w).1.writebacks = w64 (s.writebacks + 1) ∧
    (access s addr n w).2 = [] := by
  constructor
  · rw [access_miss_writebacks hm, if_pos hd]
  · rw [access_miss_fwd hm]
    simp [hh]

/-- Claim C9, witness: write a line dirty with no handler, then evict it. -/
theorem writeback_counted_without_handler_witness :
    (access (mkCache 1 1 8) 0 4 true).1.has_handler = false ∧
    (check_tag (access (mkCache 1 1 8) 0 4 true).1 16).2 = none ∧
    (victimize (access (mkCache 1 1 8) 0 4 true).1 16).2 &&& (VALID ||| DIRTY)
        = VALID ||| DIRTY ∧
    (access (access (mkCache 1 1 8) 0 4 true).1 16 4 false).1.writebacks =
      w64 ((access (mkCache 1 1 8) 0 4 true).1.writebacks + 1) ∧
    (access (access (mkCache 1 1 8) 0 4 true).1 16 4 false).2 = [] := by
  have hh : (access (mkCache 1 1 8) 0 4 true).1.has_handler = false := by decide
  have hm : (check_tag (access (mkCache 1 1 8) 0 4 true).1 16).2 = none := by decide
  have hd : (victimize (access (mkCache 1 1 8) 0 4 true).1 16).2 &&& (VALID ||| DIRTY)
      = VALID ||| DIRTY := by decide
  have h := writeback_counted_without_handler _ 16 4 false hh hm hd
  exact ⟨hh, hm, hd, h.1, h.2⟩

/-- Claim C10: the copy constructor duplicates the geometry, the tag table and
the LRU table of the source, while the statistics counters and the handler
binding are not copied from the source at all: they take the unspecified
values (the extra parameters), and the result is unchanged when the source's
counters and handler are replaced by anything else. -/
theorem copy_ctor_copies_arrays_not_counters (rhs : CacheState)
    (ra rm br wa wm bw wb : Nat) (hh : Bool) :
    (copyCtor rhs ra rm br wa wm bw wb hh).sets = rhs.sets ∧
    (copyCtor rhs ra rm br wa wm bw wb hh).ways = rhs.ways ∧
    (copyCtor rhs ra rm br wa wm bw wb hh).linesz = rhs.linesz ∧
    (copyCtor rhs ra rm br wa wm bw wb hh).idx_shift = rhs.idx_shift ∧
    (copyCtor rhs ra rm br wa wm bw wb hh).tags = rhs.tags ∧
    (copyCtor rhs ra rm br wa wm bw wb hh).lru = rhs.lru ∧
    (copyCtor rhs ra rm br wa wm bw wb hh).read_accesses = ra ∧
    (copyCtor rhs ra rm br wa wm bw wb hh).read_misses = rm ∧
    (copyCtor rhs ra rm br wa wm bw wb hh).bytes_read = br ∧
    (copyCtor rhs ra rm br wa wm bw wb hh).write_accesses = wa ∧
    (copyCtor rhs ra rm br wa wm bw wb hh).write_misses = wm ∧
    (copyCtor rhs ra rm br wa wm bw wb hh).bytes_written = bw ∧
    (copyCtor rhs ra rm br wa wm bw wb hh).writebacks = wb ∧
    (copyCtor rhs ra rm br wa wm bw wb hh).has_handler = hh ∧
    copyCtor rhs ra rm br wa wm bw wb hh =
      copyCtor { rhs with
                  read_accesses := 0, read_misses := 0, bytes_read := 0,
                  write_accesses := 0, write_misses := 0, bytes_written := 0,
                  writebacks := 0, has_handler := false }
        ra rm br wa wm bw wb hh :=
  ⟨rfl, rfl, rfl, rfl, rfl, rfl, rfl, rfl, rfl, rfl, rfl, rfl, rfl, rfl, rfl⟩
